import Mathlib

set_option maxHeartbeats 2000000
set_option maxRecDepth 10000

/-!
Verification development for the object/graph codec of the commerce engine
(the ObjectBuilder class: schema-driven build of typed objects into triples
and decode of triples back into objects).

The embedding models:
- JavaScript insertion-ordered objects as association lists (jsGet, jsSet);
- the N3 triple store as a list of quads, with pattern-matched lookup
  (getQuads) and insertion (addQuad); N3 deduplicates identical quads, but
  no code path modelled here inserts a duplicate, so plain append is used;
- JavaScript number/string conversions with a decimal digit model;
- the JavaScript Date library at day/millisecond precision in local time,
  with an abstract injective rendering of toLocaleDateString and of
  Date toString (which drops milliseconds, keeping second precision);
- uuidv4 minting as a fresh-name counter;
- the mutable per-operation property cache faithfully, as a heap of
  property maps plus a cache from type key to heap references, because the
  source shares the cached map objects by reference and mutates them
  in place during inheritance overlay;
- console.error and console.log as an appended diagnostic log;
- recursion fuel: every recursive operation takes a fuel argument and
  returns none when it runs out; none also models a thrown TypeError
  (reading fields of undefined and similar), which in the source aborts
  the whole operation.
-/

namespace CommerceEngine

/-! JavaScript object model: insertion-ordered association lists. -/

def jsGet {α : Type} : List (String × α) → String → Option α
  | [], _ => none
  | (k', v) :: rest, k => if k' = k then some v else jsGet rest k

def jsHas {α : Type} (m : List (String × α)) (k : String) : Bool :=
  (jsGet m k).isSome

def jsSet {α : Type} : List (String × α) → String → α → List (String × α)
  | [], k, v => [(k, v)]
  | (k', v') :: rest, k, v =>
    if k' = k then (k', v) :: rest else (k', v') :: jsSet rest k v

def jsSetAll {α : Type} (m : List (String × α)) (l : List (String × α)) :
    List (String × α) :=
  l.foldl (fun acc kv => jsSet acc kv.1 kv.2) m

/-! Decimal numbers as strings: model of the JavaScript conversions used by
the codec (template-literal stringification, Number, parseInt). -/

def digitChar : Nat → Char
  | 0 => '0' | 1 => '1' | 2 => '2' | 3 => '3' | 4 => '4'
  | 5 => '5' | 6 => '6' | 7 => '7' | 8 => '8' | _ => '9'

def charDigit : Char → Nat
  | '0' => 0 | '1' => 1 | '2' => 2 | '3' => 3 | '4' => 4
  | '5' => 5 | '6' => 6 | '7' => 7 | '8' => 8 | _ => 9

def natDigits : Nat → Nat → List Nat
  | _, 0 => []
  | 0, _+1 => []
  | fuel+1, n+1 => (n+1) % 10 :: natDigits fuel ((n+1) / 10)

def natToStr (n : Nat) : String :=
  if n = 0 then "0" else String.mk (((natDigits n n).map digitChar).reverse)

def parseNatQ (l : List Char) : Option Nat :=
  if l ≠ [] ∧ l.all (fun c => c.isDigit) then
    some (Nat.ofDigits 10 ((l.map charDigit).reverse))
  else none

def intToStr (i : Int) : String :=
  if i < 0 then "-" ++ natToStr i.natAbs else natToStr i.toNat

def strToIntQ (s : String) : Option Int :=
  match s.data with
  | c :: rest =>
    if c = '-' then (parseNatQ rest).map (fun n => -(Int.ofNat n))
    else (parseNatQ (c :: rest)).map (fun n => Int.ofNat n)
  | [] => none

/-- Model of JavaScript Number() restricted to the decimal strings this codec
produces; non-numeric input (NaN in JavaScript) is mapped to 0. -/
def jsNumber (s : String) : Int := (strToIntQ s).getD 0

/-- Model of JavaScript parseInt restricted to the decimal strings this codec
produces for list positions. -/
def jsParseInt (s : String) : Int := (strToIntQ s).getD 0

/-- Model of JavaScript toLowerCase on a character (ASCII range). -/
def jsCharLower (c : Char) : Char :=
  if 'A' ≤ c ∧ c ≤ 'Z' then Char.ofNat (c.toNat + 32) else c

/-- Model of JavaScript toLowerCase on a string. -/
def jsToLower (s : String) : String := String.mk (s.data.map jsCharLower)

/-- Model of JavaScript String.substring(n) (drop the first n characters). -/
def jsSubstringFrom (s : String) (n : Nat) : String := String.mk (s.data.drop n)

/-! Model of the JavaScript Date library at day/millisecond precision in
local time: a Date is a day index since the epoch plus milliseconds within
the day. -/

structure JsDate where
  day : Nat
  msOfDay : Nat
deriving DecidableEq, Repr

def JsDate.getTime (d : JsDate) : Nat := d.day * 86400000 + d.msOfDay

/-- Source function getBeginningOfDay: copy the date and zero the local
time-of-day fields via setHours(0,0,0,0). -/
def getBeginningOfDay (d : JsDate) : JsDate := ⟨d.day, 0⟩

/-- Source function isBeginningOfDay: compare getTime of the truncated copy
with getTime of the original. -/
def isBeginningOfDay (d : JsDate) : Bool :=
  (getBeginningOfDay d).getTime == d.getTime

/-- Modelled from the spec: JavaScript Date.prototype.toLocaleDateString, an
injective calendar-date rendering carrying exactly the day. -/
def dateToLocaleDateString (d : JsDate) : String := "D" ++ natToStr d.day

/-- Modelled from the spec: JavaScript Date.prototype.toString as used by
template-literal coercion, rendering the instant at second precision
(milliseconds are not part of the textual form). -/
def dateToString (d : JsDate) : String := "T" ++ natToStr (d.getTime / 1000)

/-- Modelled from the spec: new Date(string) on the strings produced by the
two renderings above; anything else is a stand-in for Invalid Date. -/
def jsParseDate (s : String) : JsDate :=
  match s.data with
  | c :: rest =>
    if c = 'D' then ⟨(parseNatQ rest).getD 0, 0⟩
    else if c = 'T' then
      ⟨(parseNatQ rest).getD 0 / 86400, (parseNatQ rest).getD 0 % 86400 * 1000⟩
    else ⟨0, 0⟩
  | [] => ⟨0, 0⟩

/-! Application values: the JavaScript values the codec builds from and
decodes to. vUndefined models the JavaScript undefined value. -/

inductive JValue where
  | vStr (s : String)
  | vNum (n : Int)
  | vBool (b : Bool)
  | vDate (d : JsDate)
  | vUndefined
  | vObj (fields : List (String × JValue))
  | vArr (elems : List JValue)
deriving Repr

/-- Model of the string a JavaScript value turns into inside a template
literal (as the N3 literal constructor does with non-string input). -/
def boolStr (b : Bool) : String := if b then "true" else "false"

def jsLitString : JValue → String
  | .vStr s => s
  | .vNum n => intToStr n
  | .vBool b => boolStr b
  | .vDate d => dateToString d
  | .vUndefined => "undefined"
  | .vObj _ => "[object Object]"
  | .vArr _ => ""

/-- Model of (dval as any[]).length > 1: only arrays and strings have a
numeric length in JavaScript; comparing undefined is false. -/
def jsLenGt1 : JValue → Bool
  | .vArr l => decide (l.length > 1)
  | .vStr s => decide (s.length > 1)
  | _ => false

/-- Model of dval[0] on an array value; undefined when absent. -/
def jsIndex0 : JValue → JValue
  | .vArr l => l.headD .vUndefined
  | _ => .vUndefined

def jsElems : JValue → List JValue
  | .vArr l => l
  | _ => []

/-! RDF terms, quads and the triple store. -/

inductive Term where
  | named (uri : String)
  | blank (id : String)
  | lit (val : String)
deriving DecidableEq, Repr

def Term.value : Term → String
  | .named u => u
  | .blank b => b
  | .lit v => v

structure Quad where
  subj : Term
  pred : Term
  obj : Term
deriving DecidableEq, Repr

abbrev Store := List Quad

def addQuad (s : Store) (q : Quad) : Store := s ++ [q]

def termMatch (pat : Option Term) (t : Term) : Bool :=
  match pat with
  | none => true
  | some p => p == t

def getQuads (s : Store) (subj pred obj : Option Term) : List Quad :=
  s.filter (fun q => termMatch subj q.subj && termMatch pred q.pred &&
    termMatch obj q.obj)

def rdfTypeUri : String := "http://www.w3.org/1999/02/22-rdf-syntax-ns#type"

/-! Schema data model (AbstractProperty and AbstractDefinition come from the
schema module; AbstractDefinition carries the extends key, the declared
properties and the reverse propertyUris map used by the decoder). -/

structure AbstractProperty where
  uri : String
  type : String
  isArray : Bool
  isOptional : Bool
  isMultiType : Bool
deriving DecidableEq, Repr

structure AbstractDefinition where
  uri : String
  extendsKey : Option String
  properties : List (String × AbstractProperty)
  propertyUris : List (String × String)
deriving DecidableEq, Repr

abbrev AbstractDefinitionMap := List (String × AbstractDefinition)

/-- The reverse map from type URI to type key, built in the ObjectBuilder
constructor. -/
def typeDefs (defs : AbstractDefinitionMap) : List (String × String) :=
  defs.foldl (fun m kv => jsSet m kv.2.uri kv.1) []

/-! Per-operation mutable state: the property cache is a JavaScript object
whose entries hold references to shared mutable map objects, so it is
modelled as a heap of property maps (heapP) and URI maps (heapU) plus a
cache from type key to a pair of heap references. The state also carries
the uuidv4 counter and the console diagnostic log. -/

structure OpState where
  heapP : List (List (String × AbstractProperty))
  heapU : List (List (String × String))
  cache : List (String × Nat × Nat)
  ctr : Nat
  log : List String
deriving DecidableEq, Repr

def initState : OpState := ⟨[], [], [], 0, []⟩

def freshUuid (st : OpState) : String × OpState :=
  ("uuid-" ++ natToStr st.ctr, { st with ctr := st.ctr + 1 })

def allocProps (st : OpState) (m : List (String × AbstractProperty)) :
    Nat × OpState :=
  (st.heapP.length, { st with heapP := st.heapP ++ [m] })

def allocUris (st : OpState) (m : List (String × String)) : Nat × OpState :=
  (st.heapU.length, { st with heapU := st.heapU ++ [m] })

/-! The Property Resolver: getAllProperties and getAllPropertyUris walk the
extends chain, overlaying the declared entries of each type onto the map
computed for its parent. On a cache hit the stored reference is returned;
on a miss with a cached parent the overlay writes through the shared
reference into the parent cell (exactly as the source does). An unknown
type key is a thrown TypeError in the source (reading extendsKey of
undefined), modelled as none; fuel exhaustion is also none. -/

def getAllProperties (defs : AbstractDefinitionMap) :
    Nat → String → OpState → Option (Nat × OpState)
  | 0, _, _ => none
  | fuel+1, ty, st =>
    match jsGet st.cache ty with
    | some (pr, _) => some (pr, st)
    | none =>
      match jsGet defs ty with
      | none => none
      | some d =>
        match d.extendsKey with
        | some p =>
          if p = "IObject" then
            some (allocProps st (jsSetAll [] d.properties))
          else
            match getAllProperties defs fuel p st with
            | none => none
            | some (r, st') =>
              some (r, { st' with
                heapP := st'.heapP.set r
                  (jsSetAll (st'.heapP.getD r []) d.properties) })
        | none => some (allocProps st (jsSetAll [] d.properties))

def getAllPropertyUris (defs : AbstractDefinitionMap) :
    Nat → String → OpState → Option (Nat × OpState)
  | 0, _, _ => none
  | fuel+1, ty, st =>
    match jsGet st.cache ty with
    | some (_, ur) => some (ur, st)
    | none =>
      match jsGet defs ty with
      | none => none
      | some d =>
        match d.extendsKey with
        | some p =>
          if p = "IObject" then
            some (allocUris st (jsSetAll [] d.propertyUris))
          else
            match getAllPropertyUris defs fuel p st with
            | none => none
            | some (r, st') =>
              some (r, { st' with
                heapU := st'.heapU.set r
                  (jsSetAll (st'.heapU.getD r []) d.propertyUris) })
        | none => some (allocUris st (jsSetAll [] d.propertyUris))

def isLiteral (ty : String) : Bool :=
  ty = "string" || ty = "number" || ty = "boolean" || ty = "Date"

/-! The Graph Builder. -/

/-- Source method buildLiteral. A string/number/boolean value becomes an
untyped literal, except a property keyed uuid whose string value becomes a
urn:uuid named-node reference, lower-cased. A Date value becomes a
calendar-date literal at local midnight and a timestamp literal otherwise.
Calling toLowerCase on a non-string uuid value throws in JavaScript
(none); non-Date values for a Date-typed property are left unmodelled
(none). Any other declared type falls through without adding a quad. -/
def buildLiteral (store : Store) (node property ty dkey : String)
    (dval : JValue) : Option Store :=
  if ty = "string" ∨ ty = "number" ∨ ty = "boolean" then
    if dkey = "uuid" then
      match dval with
      | .vStr s =>
        some (addQuad store
          ⟨.named node, .named property, .named ("urn:uuid:" ++ jsToLower s)⟩)
      | _ => none
    else
      some (addQuad store ⟨.named node, .named property, .lit (jsLitString dval)⟩)
  else if ty = "Date" then
    match dval with
    | .vDate d =>
      if isBeginningOfDay d then
        some (addQuad store
          ⟨.named node, .named property, .lit (dateToLocaleDateString d)⟩)
      else
        some (addQuad store ⟨.named node, .named property, .lit (dateToString d)⟩)
    | _ => none
  else some store

/-- Source method buildObject, parameterised by the buildResource
continuation (the two methods are mutually recursive; buildResource passes
itself at one fuel less). Reuses the id field of the value as the
sub-resource URI when present, otherwise mints baseUri # freshUUID. For a
multi-type property the concrete type key comes from the type field of the
value; when that field is absent the source logs a console.error and
continues with the declared type key. The in-operator on a non-object
throws in JavaScript (none). -/
def buildObjectWith
    (bres : String → String → JValue → String → Store → OpState →
      Option (Store × OpState))
    (propertyDef : AbstractProperty) (dval : JValue) (baseUri : String)
    (store : Store) (st : OpState) : Option (String × Store × OpState) :=
  match dval with
  | .vObj fields =>
    let idRes : Option (String × OpState) :=
      match jsGet fields "id" with
      | some (.vStr s) => some (s, st)
      | some _ => none
      | none =>
        let (u, st') := freshUuid st
        some (baseUri ++ "#" ++ u, st')
    match idRes with
    | none => none
    | some (subItemUri, st1) =>
      let tyRes : Option (String × OpState) :=
        if propertyDef.isMultiType then
          match jsGet fields "type" with
          | some (.vStr t) => some (t, st1)
          | some _ => none
          | none =>
            some (propertyDef.type,
              { st1 with log := st1.log ++
                ["Unable to determine object type from " ++ propertyDef.type ++
                  " without type"] })
        else some (propertyDef.type, st1)
      match tyRes with
      | none => none
      | some (subType, st2) =>
        match bres subType subItemUri dval baseUri store st2 with
        | none => none
        | some (store', st3) => some (subItemUri, store', st3)
  | _ => none

/-- Source method buildResource. Emits the rdf:type quad, resolves (or
reuses from the cache) the effective properties — caching a reference to
the resolved map together with a freshly allocated empty URI map — then
walks the property entries in declared order: optional absent properties
are skipped; arrays of length greater than one become an ItemList node
with positioned item nodes; everything else is built as a single literal
or sub-resource. -/
def buildResource (defs : AbstractDefinitionMap) :
    Nat → String → String → JValue → String → Store → OpState →
      Option (Store × OpState)
  | 0, _, _, _, _, _, _ => none
  | fuel+1, ty, node, obj, baseUri0, store0, st0 =>
    match jsGet defs ty with
    | none => none
    | some d =>
      match obj with
      | .vObj fields =>
        let store1 := addQuad store0 ⟨.named node, .named rdfTypeUri, .named d.uri⟩
        let cacheRes : Option (Nat × OpState) :=
          match jsGet st0.cache ty with
          | some (pr, _) => some (pr, st0)
          | none =>
            match getAllProperties defs (fuel+1) ty st0 with
            | none => none
            | some (r, stA) =>
              let (u, stB) := allocUris stA []
              some (r, { stB with cache := jsSet stB.cache ty (r, u) })
        match cacheRes with
        | none => none
        | some (pr, st1) =>
          let baseUri := if baseUri0 = "" then node else baseUri0
          let entries := st1.heapP.getD pr []
          entries.foldlM (m := Option)
            (fun (acc : Store × OpState) kv =>
              let key := kv.1
              let value := kv.2
              if value.isOptional && !(jsHas fields key) then
                some acc
              else
                let dval := (jsGet fields key).getD .vUndefined
                if value.isArray && jsLenGt1 dval then
                  let (u0, stA) := freshUuid acc.2
                  let itemListUri := baseUri ++ "#" ++ u0
                  let storeA := addQuad (addQuad acc.1
                    ⟨.named itemListUri, .named rdfTypeUri,
                      .named "http://schema.org/ItemList"⟩)
                    ⟨.named node, .named value.uri, .named itemListUri⟩
                  (jsElems dval).enum.foldlM (m := Option)
                    (fun (acc2 : Store × OpState) iel =>
                      let (u, stI) := freshUuid acc2.2
                      let itemUri := baseUri ++ "#" ++ u
                      let storeI := addQuad (addQuad acc2.1
                        ⟨.named itemListUri,
                          .named "http://schema.org/itemListElement",
                          .named itemUri⟩)
                        ⟨.named itemUri, .named "http://schema.org/position",
                          .lit (natToStr iel.1)⟩
                      if isLiteral value.type then
                        match buildLiteral storeI itemUri
                          "http://schema.org/item" value.type key iel.2 with
                        | none => none
                        | some s2 => some (s2, stI)
                      else
                        match buildObjectWith (buildResource defs fuel) value
                          iel.2 baseUri storeI stI with
                        | none => none
                        | some (subUri, s2, st2) =>
                          some (addQuad s2
                            ⟨.named itemUri, .named "http://schema.org/item",
                              .named subUri⟩, st2))
                    (storeA, stA)
                else
                  let dval2 := if value.isArray then jsIndex0 dval else dval
                  if isLiteral value.type then
                    match buildLiteral acc.1 node value.uri value.type key dval2 with
                    | none => none
                    | some s2 => some (s2, acc.2)
                  else
                    match buildObjectWith (buildResource defs fuel) value dval2
                      baseUri acc.1 acc.2 with
                    | none => none
                    | some (subUri, s2, st2) =>
                      some (addQuad s2
                        ⟨.named node, .named value.uri, .named subUri⟩, st2))
            (store1, st1)
      | _ => none

/-- Source method buildObject with its own name, tying the continuation to
buildResource at the given fuel. -/
def buildObject (defs : AbstractDefinitionMap) (fuel : Nat)
    (propertyDef : AbstractProperty) (dval : JValue) (baseUri : String)
    (store : Store) (st : OpState) : Option (String × Store × OpState) :=
  buildObjectWith (buildResource defs fuel) propertyDef dval baseUri store st

/-! The Graph Decoder. -/

/-- Source method isItemList: a named node with exactly one rdf:type
ItemList quad. -/
def isItemList (store : Store) (term : Term) : Bool :=
  match term with
  | .named _ =>
    (getQuads store (some term) (some (.named rdfTypeUri))
      (some (.named "http://schema.org/ItemList"))).length == 1
  | _ => false

/-- Source method decodeLiteral: string as-is except a uuid-keyed property
(strip the nine-character urn:uuid: prefix, then lower-case); Date via the
Date parser; number via Number(); boolean by comparing the lower-cased
text with the word true; anything else is undefined. -/
def decodeLiteral (ty propKey : String) (v : String) : JValue :=
  if ty = "string" then
    if propKey = "uuid" then .vStr (jsToLower (jsSubstringFrom v 9))
    else .vStr v
  else if ty = "Date" then .vDate (jsParseDate v)
  else if ty = "number" then .vNum (jsNumber v)
  else if ty = "boolean" then .vBool (jsToLower v == "true")
  else .vUndefined

/-- The per-element body of the decodeArray loop: look up the position and
item quads of one list-item node and keep the pair exactly when both are
unique. -/
def decodeArrayItem (store : Store) (q : Quad) : Option (Int × Term) :=
  let listItem := q.obj
  let pos := getQuads store (some listItem)
    (some (.named "http://schema.org/position")) none
  let item := getQuads store (some listItem)
    (some (.named "http://schema.org/item")) none
  match pos, item with
  | [p], [it] => some (jsParseInt p.obj.value, it.obj)
  | _, _ => none

/-- Source method decodeArray, parameterised by the decodeResource
continuation. Collects the itemListElement quads, keeps exactly the list
items carrying exactly one position and exactly one item quad, sorts the
pairs ascending by position, then maps each item through literal decoding
or resource decoding. -/
def decodeArrayWith
    (decRes : Term → OpState → Option (List (String × JValue) × OpState))
    (store : Store) (nodeUri : String) (literalVal : Bool) (ty propKey : String)
    (st : OpState) : Option (List JValue × OpState) :=
  let node : Term := .named nodeUri
  let vals := getQuads store (some node)
    (some (.named "http://schema.org/itemListElement")) none
  let output : List (Int × Term) := vals.filterMap (decodeArrayItem store)
  let sorted := List.insertionSort (fun a b => a.1 ≤ b.1) output
  if literalVal then
    some (sorted.map (fun r => decodeLiteral ty propKey r.2.value), st)
  else
    sorted.foldlM (m := Option)
      (fun (acc : List JValue × OpState) r =>
        match decRes r.2 acc.2 with
        | none => none
        | some (o, st') => some (acc.1 ++ [.vObj o], st')) ([], st)

/-- The node identifier decodeResource exposes under the id key: the URI
of a named node, with blank nodes rendered with the anonymous prefix. -/
def nodeIdOf (node : Term) : String :=
  match node with
  | .blank b => "_:" ++ b
  | t => t.value

/-- The per-quad body of the decodeResource fold, with the recursive
decode passed as a continuation. An unknown predicate leaves the
accumulator untouched; a known predicate decodes as an ordered array, a
literal, or a sub-resource (multi-type sub-resources pass no expected
type), and array-typed properties accumulate repeated predicates. -/
def decodeResourceStep
    (recRes : Term → String → OpState → Option (List (String × JValue) × OpState))
    (store : Store) (pr ur : Nat)
    (acc : List (String × JValue) × OpState) (q : Quad) :
    Option (List (String × JValue) × OpState) :=
  let item := acc.1
  let stC := acc.2
  let propUri := q.pred.value
  match jsGet (stC.heapU.getD ur []) propUri with
  | none => some acc
  | some propKey =>
    match jsGet (stC.heapP.getD pr []) propKey with
    | none => none
    | some prop =>
      let literalVal := isLiteral prop.type
      if prop.isArray && isItemList store q.obj then
        match decodeArrayWith (fun t s => recRes t "" s)
            store q.obj.value literalVal prop.type propKey stC with
        | none => none
        | some (arr, st') => some (jsSet item propKey (.vArr arr), st')
      else
        let newvalRes : Option (JValue × OpState) :=
          if literalVal then
            some (decodeLiteral prop.type propKey q.obj.value, stC)
          else if prop.isMultiType then
            match recRes q.obj "" stC with
            | none => none
            | some (o, st') => some (.vObj o, st')
          else
            match recRes q.obj prop.type stC with
            | none => none
            | some (o, st') => some (.vObj o, st')
        match newvalRes with
        | none => none
        | some (newval, st') =>
          if prop.isArray then
            match jsGet item propKey with
            | some (.vArr l) =>
              some (jsSet item propKey (.vArr (l ++ [newval])), st')
            | some _ => none
            | none => some (jsSet item propKey (.vArr [newval]), st')
          else some (jsSet item propKey newval, st')

/-- Source method decodeResource. Determines the node identifier (with a
blank-node prefix for anonymous nodes), discovers the type from the first
rdf:type quad registered in the reverse type map, falling back to the
supplied expected type; when neither resolves it logs and returns an empty
object. Otherwise it resolves (or reuses from the cache) the effective
property and URI maps, then folds over every quad of the node, decoding
known predicates as literals, ordered arrays or sub-resources; array
values accumulate across repeated predicates. -/
def decodeResource (defs : AbstractDefinitionMap) :
    Nat → Store → Term → String → OpState →
      Option (List (String × JValue) × OpState)
  | 0, _, _, _, _ => none
  | fuel+1, store, node, specifyType, st0 =>
    let types := getQuads store (some node) (some (.named rdfTypeUri)) none
    let nodeId := nodeIdOf node
    let firstT := types.findSome? (fun q => jsGet (typeDefs defs) q.obj.value)
    let item0 : List (String × JValue) :=
      [("id", .vStr nodeId), ("type", .vStr (firstT.getD ""))]
    let tyRes : Option (String × List (String × JValue)) :=
      match firstT with
      | some tk => some (tk, item0)
      | none =>
        if specifyType ≠ "" then
          some (specifyType, jsSet item0 "type" (.vStr specifyType))
        else none
    match tyRes with
    | none =>
      some ([], { st0 with log := st0.log ++
        ["Type not found for URI: " ++ node.value] })
    | some (ty, item1) =>
      let cacheRes : Option ((Nat × Nat) × OpState) :=
        match jsGet st0.cache ty with
        | some pu => some (pu, st0)
        | none =>
          match getAllProperties defs (fuel+1) ty st0 with
          | none => none
          | some (pr, stA) =>
            match getAllPropertyUris defs (fuel+1) ty stA with
            | none => none
            | some (ur, stB) =>
              some ((pr, ur), { stB with cache := jsSet stB.cache ty (pr, ur) })
      match cacheRes with
      | none => none
      | some ((pr, ur), st1) =>
        let vals := getQuads store (some node) none none
        vals.foldlM (m := Option)
          (decodeResourceStep
            (fun t sp s => decodeResource defs fuel store t sp s)
            store pr ur)
          (item1, st1)

/-- Source method decodeArray with its own name, tying the continuation to
decodeResource at the given fuel (the recursive call passes no expected
type). -/
def decodeArray (defs : AbstractDefinitionMap) (fuel : Nat) (store : Store)
    (nodeUri : String) (literalVal : Bool) (ty propKey : String)
    (st : OpState) : Option (List JValue × OpState) :=
  decodeArrayWith (fun t s => decodeResource defs fuel store t "" s)
    store nodeUri literalVal ty propKey st

/-! Concrete schema fixtures used by the claim theorems. -/

/-- Round-trip schema for the literal kinds: one type with a string, a
number, a boolean and a Date property. -/
def defsLit : AbstractDefinitionMap :=
  [("Thing", ⟨"http://x/Thing", none,
     [("name", ⟨"http://x/name", "string", false, false, false⟩),
      ("count", ⟨"http://x/count", "number", false, false, false⟩),
      ("flag", ⟨"http://x/flag", "boolean", false, false, false⟩),
      ("when", ⟨"http://x/when", "Date", false, false, false⟩)],
     [("http://x/name", "name"), ("http://x/count", "count"),
      ("http://x/flag", "flag"), ("http://x/when", "when")]⟩)]

/-- Round-trip schema for a nested single resource. -/
def defsN : AbstractDefinitionMap :=
  [("Thing", ⟨"http://x/Thing", none,
     [("sub", ⟨"http://x/sub", "Part", false, false, false⟩)],
     [("http://x/sub", "sub")]⟩),
   ("Part", ⟨"http://x/Part", none,
     [("label", ⟨"http://x/label", "string", false, false, false⟩)],
     [("http://x/label", "label")]⟩)]

/-- Build the object into a fresh store, then decode the root node back
with a fresh per-operation cache. -/
def roundTrip (defs : AbstractDefinitionMap) (ty node : String)
    (fields : List (String × JValue)) : Option (List (String × JValue)) :=
  (buildResource defs 10 ty node (.vObj fields) "" [] initState).bind
    (fun r => (decodeResource defs 10 r.1 (.named node) "" initState).map
      Prod.fst)

/-- Parent/child schema where the child redeclares the parent key a and
adds a key b, for the inheritance and cache claims. -/
def defsPC : AbstractDefinitionMap :=
  [("P", ⟨"http://x/P", none,
     [("a", ⟨"http://x/a", "string", false, false, false⟩)],
     [("http://x/a", "a")]⟩),
   ("C", ⟨"http://x/C", some "P",
     [("a", ⟨"http://x/a2", "number", false, false, false⟩),
      ("b", ⟨"http://x/b", "string", false, false, false⟩)],
     [("http://x/a2", "a"), ("http://x/b", "b")]⟩)]

/-- Schema with a multi-type property, for the discriminator claim. -/
def defsMT : AbstractDefinitionMap :=
  [("Thing", ⟨"http://x/Thing", none,
     [("part", ⟨"http://x/part", "Part", false, false, true⟩)],
     [("http://x/part", "part")]⟩),
   ("Part", ⟨"http://x/Part", none,
     [("label", ⟨"http://x/label", "string", false, false, false⟩)],
     [("http://x/label", "label")]⟩)]

/-- Minimal one-string-property schema. -/
def defsS : AbstractDefinitionMap :=
  [("Thing", ⟨"http://x/Thing", none,
     [("name", ⟨"http://x/name", "string", false, false, false⟩)],
     [("http://x/name", "name")]⟩)]

/-- Two-quad store for the decoder id/type invariant: the node carries
only its rdf:type and one name quad, never an id or type property. -/
def storeC9 : Store :=
  [⟨.named "http://n/9", .named rdfTypeUri, .named "http://x/Thing"⟩,
   ⟨.named "http://n/9", .named "http://x/name", .lit "hi"⟩]

/-- Minimal string-array schema. -/
def defsA : AbstractDefinitionMap :=
  [("Thing", ⟨"http://x/Thing", none,
     [("tags", ⟨"http://x/tags", "string", true, false, false⟩)],
     [("http://x/tags", "tags")]⟩)]

/-- Minimal Date-property schema. -/
def defsD : AbstractDefinitionMap :=
  [("Thing", ⟨"http://x/Thing", none,
     [("when", ⟨"http://x/when", "Date", false, false, false⟩)],
     [("http://x/when", "when")]⟩)]

/-- The store buildResource produces for a three-element string array on
the defsA schema (list node uuid-0, item nodes uuid-1 to uuid-3 with
0-based positions). -/
def storeC4 (a b c : String) : Store :=
  [⟨.named "http://n/1", .named rdfTypeUri, .named "http://x/Thing"⟩,
   ⟨.named "http://n/1#uuid-0", .named rdfTypeUri,
     .named "http://schema.org/ItemList"⟩,
   ⟨.named "http://n/1", .named "http://x/tags", .named "http://n/1#uuid-0"⟩,
   ⟨.named "http://n/1#uuid-0", .named "http://schema.org/itemListElement",
     .named "http://n/1#uuid-1"⟩,
   ⟨.named "http://n/1#uuid-1", .named "http://schema.org/position", .lit "0"⟩,
   ⟨.named "http://n/1#uuid-1", .named "http://schema.org/item", .lit a⟩,
   ⟨.named "http://n/1#uuid-0", .named "http://schema.org/itemListElement",
     .named "http://n/1#uuid-2"⟩,
   ⟨.named "http://n/1#uuid-2", .named "http://schema.org/position", .lit "1"⟩,
   ⟨.named "http://n/1#uuid-2", .named "http://schema.org/item", .lit b⟩,
   ⟨.named "http://n/1#uuid-0", .named "http://schema.org/itemListElement",
     .named "http://n/1#uuid-3"⟩,
   ⟨.named "http://n/1#uuid-3", .named "http://schema.org/position", .lit "2"⟩,
   ⟨.named "http://n/1#uuid-3", .named "http://schema.org/item", .lit c⟩]

/-- Schema for the unknown-type decode claim: a parent with two multi-type
children, plus the registered child type R. -/
def defsC6 : AbstractDefinitionMap :=
  [("P", ⟨"http://x/P", none,
     [("c1", ⟨"http://x/c1", "R", false, false, true⟩),
      ("c2", ⟨"http://x/c2", "R", false, false, true⟩)],
     [("http://x/c1", "c1"), ("http://x/c2", "c2")]⟩),
   ("R", ⟨"http://x/R", none,
     [("name", ⟨"http://x/name", "string", false, false, false⟩)],
     [("http://x/name", "name")]⟩)]

/-- Decode-pass store for the unknown-type claim: the parent node links one
child whose only rdf:type URI is unregistered and one fully typed child. -/
def storeC6 : Store :=
  [⟨.named "http://n/p", .named rdfTypeUri, .named "http://x/P"⟩,
   ⟨.named "http://n/p", .named "http://x/c1", .named "http://n/u"⟩,
   ⟨.named "http://n/p", .named "http://x/c2", .named "http://n/k"⟩,
   ⟨.named "http://n/u", .named rdfTypeUri, .named "http://x/Unknown"⟩,
   ⟨.named "http://n/k", .named rdfTypeUri, .named "http://x/R"⟩,
   ⟨.named "http://n/k", .named "http://x/name", .lit "hello"⟩]

/-- ItemList store with one well-formed list item, one item lacking its
item edge and one item carrying two position quads. -/
def storeC10 : Store :=
  [⟨.named "L", .named "http://schema.org/itemListElement", .named "i0"⟩,
   ⟨.named "L", .named "http://schema.org/itemListElement", .named "i1"⟩,
   ⟨.named "L", .named "http://schema.org/itemListElement", .named "i2"⟩,
   ⟨.named "i0", .named "http://schema.org/position", .lit "0"⟩,
   ⟨.named "i0", .named "http://schema.org/item", .lit "good0"⟩,
   ⟨.named "i1", .named "http://schema.org/position", .lit "1"⟩,
   ⟨.named "i2", .named "http://schema.org/position", .lit "2"⟩,
   ⟨.named "i2", .named "http://schema.org/position", .lit "9"⟩,
   ⟨.named "i2", .named "http://schema.org/item", .lit "x"⟩]

/-- Well-typedness of a schema for the decoder id/type invariant: no
propertyUris entry resolves a predicate to the reserved keys id or type. -/
def defsOkForDecode (defs : AbstractDefinitionMap) : Prop :=
  ∀ kv ∈ defs, ∀ p ∈ kv.2.propertyUris, p.2 ≠ "id" ∧ p.2 ≠ "type"

/-- Invariant on operation state: every URI map on the heap avoids the
reserved keys id and type. -/
def urisOk (st : OpState) : Prop :=
  ∀ cell ∈ st.heapU, ∀ p ∈ cell, p.2 ≠ "id" ∧ p.2 ≠ "type"

/-- Equality of decoded objects up to key ordering: the same lookup
function on keys. -/
def jsEquiv (a b : List (String × JValue)) : Prop :=
  ∀ k, jsGet a k = jsGet b k

/-! Generic lemmas about the JavaScript object model. -/

theorem jsGet_jsSet_self {α : Type} (m : List (String × α)) (k : String)
    (v : α) : jsGet (jsSet m k v) k = some v := by
  induction m with
  | nil => simp [jsSet, jsGet]
  | cons kv rest ih =>
    obtain ⟨k', v'⟩ := kv
    by_cases h : k' = k
    · subst h; simp [jsSet, jsGet]
    · simp [jsSet, jsGet, h, ih]

theorem jsGet_jsSet_ne {α : Type} (m : List (String × α)) {k k' : String}
    (v : α) (h : k ≠ k') : jsGet (jsSet m k v) k' = jsGet m k' := by
  induction m with
  | nil =>
    simp only [jsSet, jsGet, if_neg h]
  | cons kv rest ih =>
    obtain ⟨k1, v1⟩ := kv
    by_cases h1 : k1 = k
    · subst h1
      simp only [jsSet, if_pos rfl, jsGet, if_neg h]
    · simp only [jsSet, if_neg h1, jsGet]
      by_cases h2 : k1 = k'
      · simp only [if_pos h2]
      · simp only [if_neg h2, ih]

theorem jsGet_jsSetAll_not_mem {α : Type} (l : List (String × α)) :
    ∀ (m : List (String × α)) (k : String), k ∉ l.map Prod.fst →
    jsGet (jsSetAll m l) k = jsGet m k := by
  induction l with
  | nil => intro m k _; rfl
  | cons kv rest ih =>
    intro m k h
    simp only [List.map_cons, List.mem_cons, not_or] at h
    show jsGet (jsSetAll (jsSet m kv.1 kv.2) rest) k = jsGet m k
    rw [ih _ _ h.2, jsGet_jsSet_ne m kv.2 (Ne.symm h.1)]

theorem jsGet_jsSetAll_mem {α : Type} (l : List (String × α)) :
    ∀ (m : List (String × α)) (k : String) (v : α),
    (l.map Prod.fst).Nodup → (k, v) ∈ l →
    jsGet (jsSetAll m l) k = some v := by
  induction l with
  | nil => intro m k v _ hmem; cases hmem
  | cons kv rest ih =>
    intro m k v hnd hmem
    obtain ⟨k1, v1⟩ := kv
    simp only [List.map_cons, List.nodup_cons] at hnd
    rcases List.mem_cons.mp hmem with heq | htail
    · cases heq
      show jsGet (jsSetAll (jsSet m k v) rest) k = some v
      rw [jsGet_jsSetAll_not_mem rest _ _ hnd.1, jsGet_jsSet_self]
    · exact ih (jsSet m k1 v1) k v hnd.2 htail

theorem mem_jsSet {α : Type} : ∀ {m : List (String × α)} {k : String}
    {v : α} {p : String × α}, p ∈ jsSet m k v → p ∈ m ∨ p.2 = v := by
  intro m
  induction m with
  | nil =>
    intro k v p h
    simp only [jsSet, List.mem_singleton] at h
    exact Or.inr (by rw [h])
  | cons kv rest ih =>
    intro k v p h
    obtain ⟨k1, v1⟩ := kv
    by_cases h1 : k1 = k
    · simp only [jsSet, if_pos h1, List.mem_cons] at h
      rcases h with h | h
      · exact Or.inr (by rw [h])
      · exact Or.inl (List.mem_cons_of_mem _ h)
    · simp only [jsSet, if_neg h1, List.mem_cons] at h
      rcases h with h | h
      · exact Or.inl (List.mem_cons.mpr (Or.inl h))
      · rcases ih h with h' | h'
        · exact Or.inl (List.mem_cons_of_mem _ h')
        · exact Or.inr h'

theorem mem_jsSetAll {α : Type} (l : List (String × α)) :
    ∀ (m : List (String × α)) (p : String × α), p ∈ jsSetAll m l →
    p ∈ m ∨ p.2 ∈ l.map Prod.snd := by
  induction l with
  | nil => intro m p h; exact Or.inl h
  | cons kv rest ih =>
    intro m p h
    rcases ih (jsSet m kv.1 kv.2) p h with h' | h'
    · rcases mem_jsSet h' with h'' | h''
      · exact Or.inl h''
      · right; simp [h'']
    · right; simp [h']

theorem jsGet_mem {α : Type} : ∀ {m : List (String × α)} {k : String}
    {v : α}, jsGet m k = some v → (k, v) ∈ m := by
  intro m
  induction m with
  | nil => intro k v h; simp [jsGet] at h
  | cons kv rest ih =>
    intro k v h
    obtain ⟨k1, v1⟩ := kv
    by_cases h1 : k1 = k
    · subst h1
      simp [jsGet] at h
      subst h
      exact List.mem_cons_self _ _
    · simp only [jsGet, if_neg h1] at h
      exact List.mem_cons_of_mem _ (ih h)

theorem mem_heap_getD {α : Type} {l : List (List α)} {i : Nat} {x : α}
    (h : x ∈ l.getD i []) : ∃ cell ∈ l, x ∈ cell := by
  rw [List.getD_eq_getElem?_getD] at h
  cases hg : l[i]? with
  | none => rw [hg] at h; cases h
  | some cell =>
    rw [hg] at h
    exact ⟨cell, List.getElem?_mem hg, h⟩

theorem foldlM_preserves {α β : Type} (P : β → Prop) (f : β → α → Option β)
    (hf : ∀ b a b2, P b → f b a = some b2 → P b2) :
    ∀ (l : List α) (b b2 : β), P b →
      l.foldlM (m := Option) f b = some b2 → P b2 := by
  intro l
  induction l with
  | nil =>
    intro b b2 hP h
    simp only [List.foldlM_nil, Option.pure_def, Option.some.injEq] at h
    subst h; exact hP
  | cons a l ih =>
    intro b b2 hP h
    rw [List.foldlM_cons] at h
    cases hfa : f b a with
    | none => rw [hfa] at h; cases h
    | some b1 =>
      rw [hfa] at h
      exact ih b1 b2 (hf b a b1 hP hfa) h

theorem getAllProperties_heapU (defs : AbstractDefinitionMap) :
    ∀ (fuel : Nat) (ty : String) (st : OpState) (r : Nat) (st2 : OpState),
      getAllProperties defs fuel ty st = some (r, st2) →
      st2.heapU = st.heapU := by
  intro fuel
  induction fuel with
  | zero => intro ty st r st2 h; simp [getAllProperties] at h
  | succ fuel ih =>
    intro ty st r st2 h
    simp only [getAllProperties] at h
    split at h
    · cases h; rfl
    · split at h
      · cases h
      · split at h
        · split at h
          · cases h; rfl
          · split at h
            · cases h
            · rename_i r0 st0 heq
              cases h
              show st0.heapU = st.heapU
              exact ih _ _ _ _ heq
        · cases h; rfl

theorem getAllPropertyUris_urisOk (defs : AbstractDefinitionMap)
    (hdefs : defsOkForDecode defs) :
    ∀ (fuel : Nat) (ty : String) (st : OpState) (r : Nat) (st2 : OpState),
      urisOk st → getAllPropertyUris defs fuel ty st = some (r, st2) →
      urisOk st2 := by
  intro fuel
  induction fuel with
  | zero => intro ty st r st2 _ h; simp [getAllPropertyUris] at h
  | succ fuel ih =>
    intro ty st r st2 hst h
    simp only [getAllPropertyUris] at h
    split at h
    · cases h; exact hst
    · split at h
      · cases h
      · rename_i d hd
        have hdok : ∀ p ∈ d.propertyUris, p.2 ≠ "id" ∧ p.2 ≠ "type" :=
          hdefs _ (jsGet_mem hd)
        have hfresh : urisOk { st with
            heapU := st.heapU ++ [jsSetAll [] d.propertyUris] } := by
          intro cell hcell p hp
          rcases List.mem_append.mp hcell with hc | hc
          · exact hst cell hc p hp
          · rcases List.mem_singleton.mp hc with rfl
            rcases mem_jsSetAll _ _ _ hp with h0 | h0
            · cases h0
            · obtain ⟨q, hq, hqe⟩ := List.mem_map.mp h0
              rw [← hqe]; exact hdok q hq
        split at h
        · split at h
          · cases h; exact hfresh
          · split at h
            · cases h
            · rename_i r0 st0 heq
              cases h
              have hst0 : urisOk st0 := ih _ _ _ _ hst heq
              intro cell hcell p hp
              rcases List.mem_or_eq_of_mem_set hcell with hc | hc
              · exact hst0 cell hc p hp
              · subst hc
                rcases mem_jsSetAll _ _ _ hp with h0 | h0
                · obtain ⟨c, hcmem, hpc⟩ := mem_heap_getD h0
                  exact hst0 c hcmem p hpc
                · obtain ⟨q, hq, hqe⟩ := List.mem_map.mp h0
                  rw [← hqe]; exact hdok q hq
        · cases h; exact hfresh

theorem decodeArrayWith_urisOk
    (decRes : Term → OpState → Option (List (String × JValue) × OpState))
    (hd : ∀ t s res, urisOk s → decRes t s = some res → urisOk res.2)
    (store : Store) (nodeUri : String) (lv : Bool) (ty pk : String)
    (st : OpState) (res : List JValue × OpState)
    (hst : urisOk st)
    (h : decodeArrayWith decRes store nodeUri lv ty pk st = some res) :
    urisOk res.2 := by
  simp only [decodeArrayWith] at h
  split at h
  · cases h; exact hst
  · refine foldlM_preserves (fun acc => urisOk acc.2) _ ?_ _ _ _ hst h
    intro b a b2 hb hstep
    split at hstep
    · cases hstep
    · rename_i o st2 hr
      cases hstep
      exact hd _ _ _ hb hr

theorem decodeResourceStep_invariant
    (recRes : Term → String → OpState →
      Option (List (String × JValue) × OpState))
    (hrec : ∀ t sp s res, urisOk s → recRes t sp s = some res →
      urisOk res.2)
    (store : Store) (pr ur : Nat)
    (acc : List (String × JValue) × OpState) (q : Quad)
    (acc2 : List (String × JValue) × OpState)
    (hacc : urisOk acc.2)
    (h : decodeResourceStep recRes store pr ur acc q = some acc2) :
    urisOk acc2.2 ∧
    jsGet acc2.1 "id" = jsGet acc.1 "id" ∧
    jsGet acc2.1 "type" = jsGet acc.1 "type" := by
  simp only [decodeResourceStep] at h
  split at h
  · cases h; exact ⟨hacc, rfl, rfl⟩
  · rename_i propKey hpk
    have hkey : propKey ≠ "id" ∧ propKey ≠ "type" := by
      obtain ⟨cell, hcell, hpcell⟩ := mem_heap_getD (jsGet_mem hpk)
      exact hacc cell hcell _ hpcell
    split at h
    · cases h
    · rename_i prop hprop
      split at h
      · split at h
        · cases h
        · rename_i arr st2 harr
          cases h
          refine ⟨?_, ?_, ?_⟩
          · exact decodeArrayWith_urisOk _
              (fun t s r hs hr => hrec t "" s r hs hr) _ _ _ _ _ _ _
              hacc harr
          · exact jsGet_jsSet_ne _ _ hkey.1
          · exact jsGet_jsSet_ne _ _ hkey.2
      · split at h
        · cases h
        · rename_i newval st2 hnv
          have hst2 : urisOk st2 := by
            split at hnv
            · cases hnv; exact hacc
            · split at hnv
              · split at hnv
                · cases hnv
                · rename_i o st3 hr
                  cases hnv
                  exact hrec _ _ _ _ hacc hr
              · split at hnv
                · cases hnv
                · rename_i o st3 hr
                  cases hnv
                  exact hrec _ _ _ _ hacc hr
          split at h
          · split at h
            · rename_i l hl
              cases h
              exact ⟨hst2, jsGet_jsSet_ne _ _ hkey.1,
                jsGet_jsSet_ne _ _ hkey.2⟩
            · cases h
            · rename_i hl
              cases h
              exact ⟨hst2, jsGet_jsSet_ne _ _ hkey.1,
                jsGet_jsSet_ne _ _ hkey.2⟩
          · cases h
            exact ⟨hst2, jsGet_jsSet_ne _ _ hkey.1,
              jsGet_jsSet_ne _ _ hkey.2⟩

theorem decodeResource_urisOk (defs : AbstractDefinitionMap)
    (hdefs : defsOkForDecode defs) :
    ∀ (fuel : Nat) (store : Store) (node : Term) (sp : String)
      (st : OpState) (res : List (String × JValue) × OpState),
      urisOk st → decodeResource defs fuel store node sp st = some res →
      urisOk res.2 := by
  intro fuel
  induction fuel with
  | zero => intro store node sp st res _ h; simp [decodeResource] at h
  | succ fuel ih =>
    intro store node sp st res hst h
    simp only [decodeResource] at h
    split at h
    · cases h
      intro cell hcell
      exact hst cell hcell
    · rename_i ty item1 hty
      split at h
      · cases h
      · rename_i pr ur st1 hcache
        have hst1 : urisOk st1 := by
          split at hcache
          · cases hcache; exact hst
          · split at hcache
            · cases hcache
            · rename_i pr0 stA hga
              split at hcache
              · cases hcache
              · rename_i ur0 stB hgu
                cases hcache
                have hA : urisOk stA := by
                  intro cell hcell
                  rw [getAllProperties_heapU defs _ _ _ _ _ hga] at hcell
                  exact hst cell hcell
                have hB := getAllPropertyUris_urisOk defs hdefs _ _ _ _ _
                  hA hgu
                intro cell hcell
                exact hB cell hcell
        refine foldlM_preserves (fun acc => urisOk acc.2) _ ?_ _ _ _ hst1 h
        intro b a b2 hb hbstep
        exact (decodeResourceStep_invariant _
          (fun t sp2 s r hs hr => ih store t sp2 s r hs hr)
          store pr ur b a b2 hb hbstep).1

/-! Decimal round-trip lemmas. -/

theorem digitChar_isDigit {d : Nat} (h : d < 10) :
    (digitChar d).isDigit = true := by
  interval_cases d <;> decide

theorem charDigit_digitChar {d : Nat} (h : d < 10) :
    charDigit (digitChar d) = d := by
  interval_cases d <;> decide

theorem natDigits_eq_digits (fuel : Nat) :
    ∀ n : Nat, n ≤ fuel → natDigits fuel n = Nat.digits 10 n := by
  induction fuel with
  | zero =>
    intro n h
    have : n = 0 := by omega
    subst this
    rw [Nat.digits_zero]
    rfl
  | succ fuel ih =>
    intro n h
    cases n with
    | zero =>
      rw [Nat.digits_zero]
      rfl
    | succ m =>
      show (m+1) % 10 :: natDigits fuel ((m+1) / 10) = Nat.digits 10 (m+1)
      rw [ih ((m+1) / 10) (by omega)]
      rw [Nat.digits_def' (by norm_num : (1:Nat) < 10) (Nat.succ_pos m)]

theorem natToStr_eq (n : Nat) (h0 : n ≠ 0) :
    natToStr n = String.mk (((Nat.digits 10 n).map digitChar).reverse) := by
  unfold natToStr
  rw [if_neg h0, natDigits_eq_digits n n (Nat.le_refl n)]

theorem parseNatQ_natToStr (n : Nat) : parseNatQ (natToStr n).data = some n := by
  by_cases h0 : n = 0
  · subst h0; decide
  · rw [natToStr_eq n h0]
    have hne : Nat.digits 10 n ≠ [] := Nat.digits_ne_nil_iff_ne_zero.mpr h0
    have hlt : ∀ d ∈ Nat.digits 10 n, d < 10 := fun d hd =>
      Nat.digits_lt_base (by norm_num) hd
    show parseNatQ (((Nat.digits 10 n).map digitChar).reverse) = some n
    unfold parseNatQ
    rw [if_pos]
    · congr 1
      rw [List.map_reverse, List.reverse_reverse, List.map_map]
      have hmap : (Nat.digits 10 n).map (charDigit ∘ digitChar) =
          (Nat.digits 10 n).map id :=
        List.map_congr_left (fun d hd => charDigit_digitChar (hlt d hd))
      rw [hmap, List.map_id]
      exact Nat.ofDigits_digits 10 n
    · constructor
      · simp only [ne_eq, List.reverse_eq_nil_iff, List.map_eq_nil_iff]
        exact hne
      · simp only [List.all_eq_true, List.mem_reverse, List.mem_map]
        rintro c ⟨d, hd, rfl⟩
        exact digitChar_isDigit (hlt d hd)

theorem natToStr_all_digits (n : Nat) :
    (natToStr n).data ≠ [] ∧ (natToStr n).data.all (fun c => c.isDigit) := by
  have h := parseNatQ_natToStr n
  unfold parseNatQ at h
  by_cases hcond : (natToStr n).data ≠ [] ∧
      (natToStr n).data.all (fun c => c.isDigit)
  · exact hcond
  · rw [if_neg hcond] at h; cases h

theorem strToIntQ_intToStr (i : Int) : strToIntQ (intToStr i) = some i := by
  by_cases hneg : i < 0
  · have hdata : intToStr i = String.mk ('-' :: (natToStr i.natAbs).data) := by
      unfold intToStr
      rw [if_pos hneg]
      rfl
    rw [hdata]
    show (parseNatQ (natToStr i.natAbs).data).map (fun n => -(Int.ofNat n)) = some i
    rw [parseNatQ_natToStr]
    show some (-(Int.ofNat i.natAbs)) = some i
    simp only [Option.some.injEq, Int.ofNat_eq_natCast]
    omega
  · have hi : intToStr i = natToStr i.toNat := by
      unfold intToStr
      rw [if_neg hneg]
    rw [hi]
    obtain ⟨hne, hdig⟩ := natToStr_all_digits i.toNat
    unfold strToIntQ
    rcases hd : (natToStr i.toNat).data with _ | ⟨c, cs⟩
    · exact absurd hd hne
    · have hcdig : c.isDigit = true := by
        rw [hd] at hdig
        simp only [List.all_cons, Bool.and_eq_true] at hdig
        exact hdig.1
      have hcne : ¬(c = '-') := by
        intro hh
        rw [hh] at hcdig
        cases hcdig
      show (if c = '-' then (parseNatQ cs).map (fun n => -(Int.ofNat n))
        else (parseNatQ (c :: cs)).map (fun n => Int.ofNat n)) = some i
      rw [if_neg hcne, ← hd, parseNatQ_natToStr]
      show some (Int.ofNat i.toNat) = some i
      simp only [Option.some.injEq, Int.ofNat_eq_natCast]
      omega

theorem jsNumber_intToStr (n : Int) : jsNumber (intToStr n) = n := by
  unfold jsNumber
  rw [strToIntQ_intToStr]
  rfl

theorem jsParseInt_natToStr (n : Nat) : jsParseInt (natToStr n) = (n : Int) := by
  unfold jsParseInt
  have : intToStr (n : Int) = natToStr n := by
    unfold intToStr
    rw [if_neg (by omega)]
    norm_num
  rw [← this, strToIntQ_intToStr]
  rfl

/-! Date model lemmas. -/

theorem isBeginningOfDay_iff (d : JsDate) :
    isBeginningOfDay d = true ↔ d.msOfDay = 0 := by
  unfold isBeginningOfDay getBeginningOfDay JsDate.getTime
  simp only [beq_iff_eq]
  omega

theorem jsParseDate_dateToLocaleDateString (d : JsDate) :
    jsParseDate (dateToLocaleDateString d) = ⟨d.day, 0⟩ := by
  have h1 : jsParseDate (dateToLocaleDateString d) =
      ⟨(parseNatQ (natToStr d.day).data).getD 0, 0⟩ := rfl
  rw [h1, parseNatQ_natToStr]
  simp only [Option.getD_some]

theorem jsParseDate_dateToString (d : JsDate) (h : d.msOfDay < 86400000) :
    jsParseDate (dateToString d) = ⟨d.day, d.msOfDay / 1000 * 1000⟩ := by
  have h1 : jsParseDate (dateToString d) =
      ⟨(parseNatQ (natToStr (d.getTime / 1000)).data).getD 0 / 86400,
       (parseNatQ (natToStr (d.getTime / 1000)).data).getD 0 % 86400 * 1000⟩ := rfl
  rw [h1, parseNatQ_natToStr]
  simp only [Option.getD_some]
  unfold JsDate.getTime
  congr 1
  · omega
  · omega

/-! Literal build and decode lemmas. -/

theorem decodeLiteral_date (k v : String) :
    decodeLiteral "Date" k v = .vDate (jsParseDate v) := rfl

theorem decodeLiteral_number (k : String) (n : Int) :
    decodeLiteral "number" k (intToStr n) = .vNum n := by
  show JValue.vNum (jsNumber (intToStr n)) = .vNum n
  rw [jsNumber_intToStr]

theorem jsBool_decode (b : Bool) : (jsToLower (boolStr b) == "true") = b := by
  cases b <;> rfl

theorem decodeLiteral_boolean (k : String) (b : Bool) :
    decodeLiteral "boolean" k (boolStr b) = .vBool b := by
  cases b <;> rfl

theorem jsSubstringFrom_urnuuid (t : String) :
    jsSubstringFrom ("urn:uuid:" ++ t) 9 = t := by
  unfold jsSubstringFrom
  have hdata : ("urn:uuid:" ++ t).data = "urn:uuid:".data ++ t.data := rfl
  rw [hdata]
  have h9 : ("urn:uuid:".data).length = 9 := rfl
  rw [← h9, List.drop_left]

theorem decodeLiteral_uuid (t : String) :
    decodeLiteral "string" "uuid" ("urn:uuid:" ++ t) = .vStr (jsToLower t) := by
  show JValue.vStr (jsToLower (jsSubstringFrom ("urn:uuid:" ++ t) 9)) = _
  rw [jsSubstringFrom_urnuuid]

theorem buildLiteral_date (store : Store) (node prop k : String) (d : JsDate) :
    buildLiteral store node prop "Date" k (.vDate d) =
      some (addQuad store ⟨.named node, .named prop,
        .lit (if isBeginningOfDay d then dateToLocaleDateString d
              else dateToString d)⟩) := by
  show (if isBeginningOfDay d then
      some (addQuad store ⟨.named node, .named prop,
        .lit (dateToLocaleDateString d)⟩)
    else
      some (addQuad store ⟨.named node, .named prop, .lit (dateToString d)⟩)) = _
  cases isBeginningOfDay d <;> rfl

/-! Claim theorems. -/

/-- C1 counterexample: building a multi-type property value that lacks its
type discriminator does NOT fail. The build completes, returns a populated
store in which the sub-resource is typed with the declared type key of the
property (http://x/Part), and merely appends a diagnostic to the log. -/
theorem C1_counterexample :
    ∃ S st,
      buildResource defsMT 5 "Thing" "http://n/1"
        (.vObj [("part", .vObj [("label", .vStr "z")])]) "" [] initState =
        some (S, st) ∧
      (⟨.named "http://n/1#uuid-0", .named rdfTypeUri,
        .named "http://x/Part"⟩ : Quad) ∈ S ∧
      st.log = ["Unable to determine object type from Part without type"] := by
  refine ⟨_, _, rfl, ?_, rfl⟩
  decide

/-- C1 amended: for every multi-type property whose value object lacks a
type field (and reuses the id field as its node URI), buildObject logs the
schema diagnostic and continues, building the sub-resource with the
declared type key of the property instead of aborting. -/
theorem C1_multiType_fallback (defs : AbstractDefinitionMap) (fuel : Nat)
    (propertyDef : AbstractProperty) (fields : List (String × JValue))
    (baseUri : String) (store : Store) (st : OpState) (u : String)
    (hmt : propertyDef.isMultiType = true)
    (hty : jsGet fields "type" = none)
    (hid : jsGet fields "id" = some (.vStr u)) :
    buildObject defs fuel propertyDef (.vObj fields) baseUri store st =
      (buildResource defs fuel propertyDef.type u (.vObj fields) baseUri store
        { st with log := st.log ++
          ["Unable to determine object type from " ++ propertyDef.type ++
            " without type"] }).map
        (fun r => (u, r.1, r.2)) := by
  unfold buildObject buildObjectWith
  simp only [hmt, hid, hty, if_true]
  cases buildResource defs fuel propertyDef.type u (.vObj fields) baseUri store
    { st with log := st.log ++
      ["Unable to determine object type from " ++ propertyDef.type ++
        " without type"] } <;> rfl

/-- C1 amended witness at a concrete schema and input. -/
theorem C1_multiType_fallback_witness :
    buildObject defsMT 5 ⟨"http://x/part", "Part", false, false, true⟩
      (.vObj [("id", .vStr "http://n/2"), ("label", .vStr "z")])
      "http://n/1" [] initState =
      (buildResource defsMT 5 "Part" "http://n/2"
        (.vObj [("id", .vStr "http://n/2"), ("label", .vStr "z")])
        "http://n/1" []
        { initState with log :=
          ["Unable to determine object type from Part without type"] }).map
        (fun r => ("http://n/2", r.1, r.2)) :=
  C1_multiType_fallback defsMT 5 ⟨"http://x/part", "Part", false, false, true⟩
    [("id", .vStr "http://n/2"), ("label", .vStr "z")]
    "http://n/1" [] initState "http://n/2" rfl rfl rfl

/-- C3: resolving a child type whose parent is already cached mutates the
cached entry of the parent in place: after building a P resource the cache
holds the resolved P map; building a C resource (C extends P) afterwards
overlays the C properties onto the same shared map object, so the entry of
the already-resolved key P changes, no longer equals a fresh resolution of
P, and the URI map buildResource cached for P is empty rather than the
fresh resolution. -/
theorem C3_cache_mutation :
    ∃ S1 st1 S2 st2,
      buildResource defsPC 5 "P" "http://n/1" (.vObj [("a", .vStr "1")]) "" []
        initState = some (S1, st1) ∧
      jsGet st1.cache "P" = some (0, 0) ∧
      st1.heapP.getD 0 [] =
        [("a", ⟨"http://x/a", "string", false, false, false⟩)] ∧
      st1.heapU.getD 0 [] = [] ∧
      (getAllPropertyUris defsPC 5 "P" initState).map
        (fun r => r.2.heapU.getD r.1 []) = some [("http://x/a", "a")] ∧
      buildResource defsPC 5 "C" "http://n/2"
        (.vObj [("a", .vNum 1), ("b", .vStr "2")]) "" [] st1 =
        some (S2, st2) ∧
      jsGet st2.cache "P" = some (0, 0) ∧
      st2.heapP.getD 0 [] =
        [("a", ⟨"http://x/a2", "number", false, false, false⟩),
         ("b", ⟨"http://x/b", "string", false, false, false⟩)] ∧
      st2.heapP.getD 0 [] ≠
        [("a", ⟨"http://x/a", "string", false, false, false⟩)] := by
  refine ⟨_, _, _, _, rfl, ?_, ?_, ?_, ?_, rfl, ?_, ?_, ?_⟩ <;> decide

/-- C6: a node whose only rdf:type URI is unregistered decodes, with no
expected type supplied, to an empty object with a logged diagnostic and no
thrown error; and in the same decode pass (same store), a parent node
holding that node and a registered sibling still decodes fully, the
unknown child becoming an empty object and the registered child a complete
object. -/
theorem C6_unknown_type_decode :
    decodeResource defsC6 5 storeC6 (.named "http://n/u") "" initState =
      some ([], { initState with log :=
        ["Type not found for URI: http://n/u"] }) ∧
    ∃ st',
      decodeResource defsC6 5 storeC6 (.named "http://n/p") "" initState =
        some ([("id", .vStr "http://n/p"), ("type", .vStr "P"),
          ("c1", .vObj []),
          ("c2", .vObj [("id", .vStr "http://n/k"), ("type", .vStr "R"),
            ("name", .vStr "hello")])], st') := by
  exact ⟨rfl, _, rfl⟩

/-- C8 counterexample: a Date value one millisecond after local midnight
builds to the timestamp literal T0, which decodes back to exact midnight:
the millisecond is lost, so decoding the timestamp literal is not
full-precision. -/
theorem C8_counterexample :
    buildLiteral [] "n" "p" "Date" "k" (.vDate ⟨0, 1⟩) =
      some [⟨.named "n", .named "p", .lit "T0"⟩] ∧
    decodeLiteral "Date" "k" "T0" = .vDate ⟨0, 0⟩ ∧
    (⟨0, 0⟩ : JsDate) ≠ ⟨0, 1⟩ := by
  refine ⟨rfl, rfl, by decide⟩

/-- C8 amended: a Date value is emitted as a calendar-date literal exactly
when the instant is local midnight and as a timestamp literal otherwise;
decoding the calendar-date literal restores the day (day precision) and
decoding the timestamp literal restores the instant truncated to whole
seconds (second precision, exact for whole-second values). -/
theorem C8_date_precision (store : Store) (node prop k : String) (d : JsDate)
    (h : d.msOfDay < 86400000) :
    (isBeginningOfDay d = true ↔ d.msOfDay = 0) ∧
    buildLiteral store node prop "Date" k (.vDate d) =
      some (addQuad store ⟨.named node, .named prop,
        .lit (if isBeginningOfDay d then dateToLocaleDateString d
              else dateToString d)⟩) ∧
    decodeLiteral "Date" k (dateToLocaleDateString d) = .vDate ⟨d.day, 0⟩ ∧
    decodeLiteral "Date" k (dateToString d) =
      .vDate ⟨d.day, d.msOfDay / 1000 * 1000⟩ ∧
    (d.msOfDay % 1000 = 0 →
      decodeLiteral "Date" k (dateToString d) = .vDate d) := by
  refine ⟨isBeginningOfDay_iff d, buildLiteral_date store node prop k d, ?_, ?_, ?_⟩
  · rw [decodeLiteral_date, jsParseDate_dateToLocaleDateString]
  · rw [decodeLiteral_date, jsParseDate_dateToString d h]
  · intro hsec
    rw [decodeLiteral_date, jsParseDate_dateToString d h]
    have : d.msOfDay / 1000 * 1000 = d.msOfDay := by omega
    rw [this]

/-- C8 witness at the spec example 14:30:00 (52200000 ms into the day). -/
theorem C8_date_precision_witness :
    (isBeginningOfDay ⟨20000, 52200000⟩ = true ↔ (52200000 : Nat) = 0) ∧
    buildLiteral [] "n" "p" "Date" "k" (.vDate ⟨20000, 52200000⟩) =
      some (addQuad [] ⟨.named "n", .named "p",
        .lit (if isBeginningOfDay ⟨20000, 52200000⟩
              then dateToLocaleDateString ⟨20000, 52200000⟩
              else dateToString ⟨20000, 52200000⟩)⟩) ∧
    decodeLiteral "Date" "k" (dateToLocaleDateString ⟨20000, 52200000⟩) =
      .vDate ⟨20000, 0⟩ ∧
    decodeLiteral "Date" "k" (dateToString ⟨20000, 52200000⟩) =
      .vDate ⟨20000, 52200000 / 1000 * 1000⟩ ∧
    ((52200000 : Nat) % 1000 = 0 →
      decodeLiteral "Date" "k" (dateToString ⟨20000, 52200000⟩) =
        .vDate ⟨20000, 52200000⟩) :=
  C8_date_precision [] "n" "p" "k" ⟨20000, 52200000⟩ (by decide)

/-- C10: decodeArray silently drops malformed list items: in a store whose
ItemList carries one well-formed item, one item without an item edge and
one item with two position quads, only the well-formed element is decoded,
and on the literal path decodeArray always succeeds (returns some) with
the state unchanged, for every store and every fuel. -/
theorem C10_malformed_items :
    decodeArray defsS 5 storeC10 "L" true "string" "k" initState =
      some ([.vStr "good0"], initState) ∧
    ∀ (defs : AbstractDefinitionMap) (fuel : Nat) (store : Store)
      (uri ty key : String) (st : OpState),
      ∃ l, decodeArray defs fuel store uri true ty key st = some (l, st) := by
  refine ⟨rfl, ?_⟩
  intro defs fuel store uri ty key st
  exact ⟨_, rfl⟩

/-- C7: a string property keyed uuid builds to a urn:uuid named-node
reference holding the lower-cased value (not a literal), decoding a
urn:uuid reference for a uuid-keyed property strips the nine-character
prefix and lower-cases the remainder, and the spec example value round
trips concretely. -/
theorem C7_uuid_special_casing (store : Store) (node prop : String) :
    (∀ s : String, buildLiteral store node prop "string" "uuid" (.vStr s) =
      some (addQuad store ⟨.named node, .named prop,
        .named ("urn:uuid:" ++ jsToLower s)⟩)) ∧
    (∀ t : String, decodeLiteral "string" "uuid" ("urn:uuid:" ++ t) =
      .vStr (jsToLower t)) ∧
    buildLiteral store node prop "string" "uuid"
      (.vStr "ABCDEF12-3456-7890-ABCD-EF1234567890") =
      some (addQuad store ⟨.named node, .named prop,
        .named "urn:uuid:abcdef12-3456-7890-abcd-ef1234567890"⟩) ∧
    decodeLiteral "string" "uuid"
      "urn:uuid:abcdef12-3456-7890-abcd-ef1234567890" =
      .vStr "abcdef12-3456-7890-abcd-ef1234567890" := by
  refine ⟨fun s => rfl, fun t => decodeLiteral_uuid t, ?_, ?_⟩
  · show some (addQuad store ⟨.named node, .named prop,
      .named ("urn:uuid:" ++ jsToLower "ABCDEF12-3456-7890-ABCD-EF1234567890")⟩) = _
    rfl
  · rfl

/-- C2 counterexample: the round trip fails as stated. An object without
id and type decodes to an object carrying both; an empty array builds as
an undefined literal and decodes as a one-element array; a Date with a
millisecond component decodes truncated. Each part exhibits a conforming
concrete object whose decode of its build differs even up to key
ordering. -/
theorem C2_counterexample :
    ((buildResource defsS 5 "Thing" "http://n/1"
        (.vObj [("name", .vStr "x")]) "" [] initState).bind
      (fun r => (decodeResource defsS 5 r.1 (.named "http://n/1") ""
        initState).map Prod.fst) =
      some [("id", .vStr "http://n/1"), ("type", .vStr "Thing"),
        ("name", .vStr "x")] ∧
     ¬ jsEquiv [("id", .vStr "http://n/1"), ("type", .vStr "Thing"),
        ("name", .vStr "x")] [("name", .vStr "x")]) ∧
    ((buildResource defsA 5 "Thing" "http://n/1"
        (.vObj [("id", .vStr "http://n/1"), ("type", .vStr "Thing"),
          ("tags", .vArr [])]) "" [] initState).bind
      (fun r => (decodeResource defsA 5 r.1 (.named "http://n/1") ""
        initState).map Prod.fst) =
      some [("id", .vStr "http://n/1"), ("type", .vStr "Thing"),
        ("tags", .vArr [.vStr "undefined"])] ∧
     ¬ jsEquiv [("id", .vStr "http://n/1"), ("type", .vStr "Thing"),
        ("tags", .vArr [.vStr "undefined"])]
       [("id", .vStr "http://n/1"), ("type", .vStr "Thing"),
        ("tags", .vArr [])]) ∧
    ((buildResource defsD 5 "Thing" "http://n/1"
        (.vObj [("id", .vStr "http://n/1"), ("type", .vStr "Thing"),
          ("when", .vDate ⟨0, 1⟩)]) "" [] initState).bind
      (fun r => (decodeResource defsD 5 r.1 (.named "http://n/1") ""
        initState).map Prod.fst) =
      some [("id", .vStr "http://n/1"), ("type", .vStr "Thing"),
        ("when", .vDate ⟨0, 0⟩)] ∧
     ¬ jsEquiv [("id", .vStr "http://n/1"), ("type", .vStr "Thing"),
        ("when", .vDate ⟨0, 0⟩)]
       [("id", .vStr "http://n/1"), ("type", .vStr "Thing"),
        ("when", .vDate ⟨0, 1⟩)]) := by
  refine ⟨⟨rfl, ?_⟩, ⟨rfl, ?_⟩, ⟨rfl, ?_⟩⟩
  · intro h
    have h1 := h "id"
    simp [jsGet] at h1
  · intro h
    have h1 := h "tags"
    simp [jsGet] at h1
  · intro h
    have h1 := h "when"
    simp [jsGet] at h1

theorem getD_set_self {α : Type} (l : List α) (i : Nat) (x d : α)
    (h : i < l.length) : (l.set i x).getD i d = x := by
  rw [List.getD_eq_getElem?_getD, List.getElem?_set_self h]
  rfl

/-- C5: when a child type declares extends to a non-root parent and is not
yet cached, getAllProperties resolves the parent first and then overlays
the child declarations onto that map, so the child definition wins for
every redeclared key while every key the child does not redeclare keeps
the value resolved through the parent; the same holds for
getAllPropertyUris. -/
theorem C5_inheritance_overlay (defs : AbstractDefinitionMap)
    (fuel : Nat) (child p : String) (cdef : AbstractDefinition) (st : OpState)
    (r : Nat) (st1 : OpState) (ru : Nat) (stu : OpState)
    (h1 : jsGet defs child = some cdef)
    (h2 : cdef.extendsKey = some p)
    (h3 : ¬ p = "IObject")
    (h4 : jsGet st.cache child = none)
    (h5 : getAllProperties defs fuel p st = some (r, st1))
    (h6 : r < st1.heapP.length)
    (h7 : getAllPropertyUris defs fuel p st = some (ru, stu))
    (h8 : ru < stu.heapU.length) :
    (∃ st2, getAllProperties defs (fuel+1) child st = some (r, st2) ∧
      st2.heapP.getD r [] = jsSetAll (st1.heapP.getD r []) cdef.properties ∧
      ((cdef.properties.map Prod.fst).Nodup →
        ∀ k v, (k, v) ∈ cdef.properties →
          jsGet (st2.heapP.getD r []) k = some v) ∧
      (∀ k, k ∉ cdef.properties.map Prod.fst →
        jsGet (st2.heapP.getD r []) k = jsGet (st1.heapP.getD r []) k)) ∧
    (∃ st2, getAllPropertyUris defs (fuel+1) child st = some (ru, st2) ∧
      st2.heapU.getD ru [] = jsSetAll (stu.heapU.getD ru []) cdef.propertyUris ∧
      ((cdef.propertyUris.map Prod.fst).Nodup →
        ∀ k v, (k, v) ∈ cdef.propertyUris →
          jsGet (st2.heapU.getD ru []) k = some v) ∧
      (∀ k, k ∉ cdef.propertyUris.map Prod.fst →
        jsGet (st2.heapU.getD ru []) k = jsGet (stu.heapU.getD ru []) k)) := by
  constructor
  · refine ⟨{ st1 with
      heapP := st1.heapP.set r
        (jsSetAll (st1.heapP.getD r []) cdef.properties) }, ?_, ?_, ?_, ?_⟩
    · show (match jsGet st.cache child with
        | some (pr, _) => some (pr, st)
        | none =>
          match jsGet defs child with
          | none => none
          | some d =>
            match d.extendsKey with
            | some pp =>
              if pp = "IObject" then
                some (allocProps st (jsSetAll [] d.properties))
              else
                match getAllProperties defs fuel pp st with
                | none => none
                | some (r, st') =>
                  some (r, { st' with
                    heapP := st'.heapP.set r
                      (jsSetAll (st'.heapP.getD r []) d.properties) })
            | none => some (allocProps st (jsSetAll [] d.properties))) =
        some (r, { st1 with
          heapP := st1.heapP.set r
            (jsSetAll (st1.heapP.getD r []) cdef.properties) })
      simp only [h4, h1, h2, h5]
      rw [if_neg h3]
    · show ({ st1 with
        heapP := st1.heapP.set r
          (jsSetAll (st1.heapP.getD r []) cdef.properties) } : OpState).heapP.getD
          r [] = _
      exact getD_set_self _ _ _ _ h6
    · intro hnd k v hmem
      rw [show ({ st1 with
        heapP := st1.heapP.set r
          (jsSetAll (st1.heapP.getD r []) cdef.properties) } : OpState).heapP.getD
          r [] = jsSetAll (st1.heapP.getD r []) cdef.properties from
        getD_set_self _ _ _ _ h6]
      exact jsGet_jsSetAll_mem _ _ _ _ hnd hmem
    · intro k hk
      rw [show ({ st1 with
        heapP := st1.heapP.set r
          (jsSetAll (st1.heapP.getD r []) cdef.properties) } : OpState).heapP.getD
          r [] = jsSetAll (st1.heapP.getD r []) cdef.properties from
        getD_set_self _ _ _ _ h6]
      exact jsGet_jsSetAll_not_mem _ _ _ hk
  · refine ⟨{ stu with
      heapU := stu.heapU.set ru
        (jsSetAll (stu.heapU.getD ru []) cdef.propertyUris) }, ?_, ?_, ?_, ?_⟩
    · show (match jsGet st.cache child with
        | some (_, ur) => some (ur, st)
        | none =>
          match jsGet defs child with
          | none => none
          | some d =>
            match d.extendsKey with
            | some pp =>
              if pp = "IObject" then
                some (allocUris st (jsSetAll [] d.propertyUris))
              else
                match getAllPropertyUris defs fuel pp st with
                | none => none
                | some (r, st') =>
                  some (r, { st' with
                    heapU := st'.heapU.set r
                      (jsSetAll (st'.heapU.getD r []) d.propertyUris) })
            | none => some (allocUris st (jsSetAll [] d.propertyUris))) =
        some (ru, { stu with
          heapU := stu.heapU.set ru
            (jsSetAll (stu.heapU.getD ru []) cdef.propertyUris) })
      simp only [h4, h1, h2, h7]
      rw [if_neg h3]
    · show ({ stu with
        heapU := stu.heapU.set ru
          (jsSetAll (stu.heapU.getD ru []) cdef.propertyUris) } : OpState).heapU.getD
          ru [] = _
      exact getD_set_self _ _ _ _ h8
    · intro hnd k v hmem
      rw [show ({ stu with
        heapU := stu.heapU.set ru
          (jsSetAll (stu.heapU.getD ru []) cdef.propertyUris) } : OpState).heapU.getD
          ru [] = jsSetAll (stu.heapU.getD ru []) cdef.propertyUris from
        getD_set_self _ _ _ _ h8]
      exact jsGet_jsSetAll_mem _ _ _ _ hnd hmem
    · intro k hk
      rw [show ({ stu with
        heapU := stu.heapU.set ru
          (jsSetAll (stu.heapU.getD ru []) cdef.propertyUris) } : OpState).heapU.getD
          ru [] = jsSetAll (stu.heapU.getD ru []) cdef.propertyUris from
        getD_set_self _ _ _ _ h8]
      exact jsGet_jsSetAll_not_mem _ _ _ hk

/-- C5 witness: in the parent/child fixture the child definition of key a
wins, the new key b resolves, the child URI entry resolves, and the parent
URI entry the child does not redeclare is preserved. -/
theorem C5_witness :
    ∃ st2, getAllProperties defsPC (5+1) "C" initState = some (0, st2) ∧
      jsGet (st2.heapP.getD 0 []) "a" =
        some ⟨"http://x/a2", "number", false, false, false⟩ ∧
      jsGet (st2.heapP.getD 0 []) "b" =
        some ⟨"http://x/b", "string", false, false, false⟩ ∧
      ∃ st3, getAllPropertyUris defsPC (5+1) "C" initState = some (0, st3) ∧
        jsGet (st3.heapU.getD 0 []) "http://x/a2" = some "a" ∧
        jsGet (st3.heapU.getD 0 []) "http://x/b" = some "b" ∧
        jsGet (st3.heapU.getD 0 []) "http://x/a" = some "a" := by
  have h := C5_inheritance_overlay defsPC 5 "C" "P"
    ⟨"http://x/C", some "P",
      [("a", ⟨"http://x/a2", "number", false, false, false⟩),
       ("b", ⟨"http://x/b", "string", false, false, false⟩)],
      [("http://x/a2", "a"), ("http://x/b", "b")]⟩
    initState 0
    ⟨[[("a", ⟨"http://x/a", "string", false, false, false⟩)]], [], [], 0, []⟩
    0 ⟨[], [[("http://x/a", "a")]], [], 0, []⟩
    rfl rfl (by decide) rfl rfl (by decide) rfl (by decide)
  obtain ⟨⟨st2, hres, _, hwin, _⟩, ⟨st3, hres2, _, hwin2, hkeep2⟩⟩ := h
  refine ⟨st2, hres, ?_, ?_, st3, hres2, ?_, ?_, ?_⟩
  · exact hwin (by decide) "a" ⟨"http://x/a2", "number", false, false, false⟩
      (by decide)
  · exact hwin (by decide) "b" ⟨"http://x/b", "string", false, false, false⟩
      (by decide)
  · exact hwin2 (by decide) "http://x/a2" "a" (by decide)
  · exact hwin2 (by decide) "http://x/b" "b" (by decide)
  · have hkeep := hkeep2 "http://x/a" (by decide)
    rw [hkeep]
    decide

/-- C2 amended: the round trip decodeResource after buildResource is the
identity (exactly, hence up to key ordering) for objects that carry their
own id and type fields, across every literal kind (string, number and
boolean values arbitrary; Date values at whole-second instants, midnight
and non-midnight), a nested single resource, and ordered string arrays of
length one, two and three; length-zero arrays and objects without id or
type are excluded (see the counterexample). -/
theorem C2_round_trip (s lab a1 a2 a3 : String) (n : Int) (b : Bool) :
    roundTrip defsLit "Thing" "http://n/1"
      [("id", .vStr "http://n/1"), ("type", .vStr "Thing"),
       ("name", .vStr s), ("count", .vNum n), ("flag", .vBool b),
       ("when", .vDate ⟨200, 3000⟩)] =
    some [("id", .vStr "http://n/1"), ("type", .vStr "Thing"),
       ("name", .vStr s), ("count", .vNum n), ("flag", .vBool b),
       ("when", .vDate ⟨200, 3000⟩)] ∧
    roundTrip defsLit "Thing" "http://n/1"
      [("id", .vStr "http://n/1"), ("type", .vStr "Thing"),
       ("name", .vStr s), ("count", .vNum n), ("flag", .vBool b),
       ("when", .vDate ⟨200, 0⟩)] =
    some [("id", .vStr "http://n/1"), ("type", .vStr "Thing"),
       ("name", .vStr s), ("count", .vNum n), ("flag", .vBool b),
       ("when", .vDate ⟨200, 0⟩)] ∧
    roundTrip defsN "Thing" "http://n/1"
      [("id", .vStr "http://n/1"), ("type", .vStr "Thing"),
       ("sub", .vObj [("id", .vStr "http://n/2"), ("type", .vStr "Part"),
         ("label", .vStr lab)])] =
    some [("id", .vStr "http://n/1"), ("type", .vStr "Thing"),
       ("sub", .vObj [("id", .vStr "http://n/2"), ("type", .vStr "Part"),
         ("label", .vStr lab)])] ∧
    roundTrip defsA "Thing" "http://n/1"
      [("id", .vStr "http://n/1"), ("type", .vStr "Thing"),
       ("tags", .vArr [.vStr a1])] =
    some [("id", .vStr "http://n/1"), ("type", .vStr "Thing"),
       ("tags", .vArr [.vStr a1])] ∧
    roundTrip defsA "Thing" "http://n/1"
      [("id", .vStr "http://n/1"), ("type", .vStr "Thing"),
       ("tags", .vArr [.vStr a1, .vStr a2])] =
    some [("id", .vStr "http://n/1"), ("type", .vStr "Thing"),
       ("tags", .vArr [.vStr a1, .vStr a2])] ∧
    roundTrip defsA "Thing" "http://n/1"
      [("id", .vStr "http://n/1"), ("type", .vStr "Thing"),
       ("tags", .vArr [.vStr a1, .vStr a2, .vStr a3])] =
    some [("id", .vStr "http://n/1"), ("type", .vStr "Thing"),
       ("tags", .vArr [.vStr a1, .vStr a2, .vStr a3])] := by
  refine ⟨?_, ?_, ?_, ?_, ?_, ?_⟩
  · conv_rhs => rw [← jsNumber_intToStr n, ← jsBool_decode b]
    rfl
  · conv_rhs => rw [← jsNumber_intToStr n, ← jsBool_decode b]
    rfl
  · rfl
  · rfl
  · rfl
  · have hb : buildResource defsA 10 "Thing" "http://n/1"
        (.vObj [("id", .vStr "http://n/1"), ("type", .vStr "Thing"),
          ("tags", .vArr [.vStr a1, .vStr a2, .vStr a3])]) "" [] initState =
        some
          ([⟨.named "http://n/1", .named rdfTypeUri, .named "http://x/Thing"⟩,
            ⟨.named "http://n/1#uuid-0", .named rdfTypeUri,
              .named "http://schema.org/ItemList"⟩,
            ⟨.named "http://n/1", .named "http://x/tags",
              .named "http://n/1#uuid-0"⟩,
            ⟨.named "http://n/1#uuid-0",
              .named "http://schema.org/itemListElement",
              .named "http://n/1#uuid-1"⟩,
            ⟨.named "http://n/1#uuid-1", .named "http://schema.org/position",
              .lit "0"⟩,
            ⟨.named "http://n/1#uuid-1", .named "http://schema.org/item",
              .lit a1⟩,
            ⟨.named "http://n/1#uuid-0",
              .named "http://schema.org/itemListElement",
              .named "http://n/1#uuid-2"⟩,
            ⟨.named "http://n/1#uuid-2", .named "http://schema.org/position",
              .lit "1"⟩,
            ⟨.named "http://n/1#uuid-2", .named "http://schema.org/item",
              .lit a2⟩,
            ⟨.named "http://n/1#uuid-0",
              .named "http://schema.org/itemListElement",
              .named "http://n/1#uuid-3"⟩,
            ⟨.named "http://n/1#uuid-3", .named "http://schema.org/position",
              .lit "2"⟩,
            ⟨.named "http://n/1#uuid-3", .named "http://schema.org/item",
              .lit a3⟩],
           ⟨[[("tags", ⟨"http://x/tags", "string", true, false, false⟩)]],
            [[]], [("Thing", (0, 0))], 4, []⟩) := by
      simp [buildResource, buildObjectWith, buildLiteral, getAllProperties,
        allocProps, allocUris, freshUuid, jsGet, jsSet, jsSetAll, jsHas,
        jsLenGt1, jsElems, jsIndex0, isLiteral, jsLitString, addQuad,
        initState, defsA, natToStr, natDigits, digitChar, List.foldlM,
        List.enum, List.enumFrom, List.foldl, Option.bind, rdfTypeUri]
    show (buildResource defsA 10 "Thing" "http://n/1"
        (.vObj [("id", .vStr "http://n/1"), ("type", .vStr "Thing"),
          ("tags", .vArr [.vStr a1, .vStr a2, .vStr a3])]) "" []
        initState).bind
      (fun r => (decodeResource defsA 10 r.1 (.named "http://n/1") ""
        initState).map Prod.fst) = _
    rw [hb]
    rfl

theorem filterMap_congr_perm {α β : Type} (f g : α → Option β)
    {l₁ l₂ : List α} (h : l₁.Perm l₂) (hfg : ∀ x ∈ l₂, f x = g x) :
    (l₁.filterMap f).Perm (l₂.filterMap g) := by
  have h1 : (l₁.filterMap f).Perm (l₂.filterMap f) := h.filterMap f
  rw [List.filterMap_congr hfg] at h1
  exact h1

theorem sorted_perm_eq_of_nodup_keys {β : Type} {l₁ l₂ : List (Int × β)}
    (h : l₁.Perm l₂)
    (s₁ : l₁.Sorted (fun x y => x.1 ≤ y.1))
    (s₂ : l₂.Sorted (fun x y => x.1 ≤ y.1))
    (hnd : (l₂.map Prod.fst).Nodup) : l₁ = l₂ := by
  have hnd₁ : (l₁.map Prod.fst).Nodup := ((h.map Prod.fst).nodup_iff).mpr hnd
  have hp₁ : l₁.Pairwise (fun x y => x.1 ≠ y.1) := (List.pairwise_map).mp hnd₁
  have hp₂ : l₂.Pairwise (fun x y => x.1 ≠ y.1) := (List.pairwise_map).mp hnd
  have s₁' : l₁.Sorted (fun x y => x.1 < y.1) :=
    (s₁.and hp₁).imp (fun hxy => lt_of_le_of_ne hxy.1 hxy.2)
  have s₂' : l₂.Sorted (fun x y => x.1 < y.1) :=
    (s₂.and hp₂).imp (fun hxy => lt_of_le_of_ne hxy.1 hxy.2)
  haveI : IsAntisymm (Int × β) (fun x y => x.1 < y.1) :=
    ⟨fun x y h1 h2 => absurd (h1.trans h2) (lt_irrefl _)⟩
  exact List.eq_of_perm_of_sorted h s₁' s₂'

/-- C4: building a three-element array emits position literals equal to
the 0-based input indices, and decodeArray restores the input order from
every enumeration order of the store: for every permutation of the built
store, the decoded array is exactly the input list. -/
theorem C4_list_ordering (a b c : String) :
    buildResource defsA 10 "Thing" "http://n/1"
      (.vObj [("id", .vStr "http://n/1"), ("type", .vStr "Thing"),
        ("tags", .vArr [.vStr a, .vStr b, .vStr c])]) "" [] initState =
      some (storeC4 a b c,
        ⟨[[("tags", ⟨"http://x/tags", "string", true, false, false⟩)]],
         [[]], [("Thing", (0, 0))], 4, []⟩) ∧
    (⟨.named "http://n/1#uuid-1", .named "http://schema.org/position",
      .lit (natToStr 0)⟩ : Quad) ∈ storeC4 a b c ∧
    (⟨.named "http://n/1#uuid-2", .named "http://schema.org/position",
      .lit (natToStr 1)⟩ : Quad) ∈ storeC4 a b c ∧
    (⟨.named "http://n/1#uuid-3", .named "http://schema.org/position",
      .lit (natToStr 2)⟩ : Quad) ∈ storeC4 a b c ∧
    ∀ S' : Store, S'.Perm (storeC4 a b c) →
      decodeArray defsA 10 S' "http://n/1#uuid-0" true "string" "tags"
        initState = some ([.vStr a, .vStr b, .vStr c], initState) := by
  refine ⟨?_, ?_, ?_, ?_, ?_⟩
  · simp [buildResource, buildObjectWith, buildLiteral, getAllProperties,
      allocProps, allocUris, freshUuid, jsGet, jsSet, jsSetAll, jsHas,
      jsLenGt1, jsElems, jsIndex0, isLiteral, jsLitString, addQuad,
      initState, defsA, storeC4, natToStr, natDigits, digitChar,
      List.foldlM, List.enum, List.enumFrom, List.foldl, Option.bind,
      rdfTypeUri]
  · simp [storeC4, show natToStr 0 = "0" from rfl]
  · simp [storeC4, show natToStr 1 = "1" from rfl]
  · simp [storeC4, show natToStr 2 = "2" from rfl]
  · intro S' hperm
    haveI htot : IsTotal (Int × Term) (fun x y => x.1 ≤ y.1) :=
      ⟨fun x y => le_total x.1 y.1⟩
    haveI htr : IsTrans (Int × Term) (fun x y => x.1 ≤ y.1) :=
      ⟨fun x y z h1 h2 => le_trans h1 h2⟩
    have h1p : getQuads S' (some (.named "http://n/1#uuid-1"))
        (some (.named "http://schema.org/position")) none =
        [⟨.named "http://n/1#uuid-1", .named "http://schema.org/position",
          .lit "0"⟩] :=
      List.perm_singleton.mp ((hperm.filter _).trans (by rfl))
    have h2p : getQuads S' (some (.named "http://n/1#uuid-2"))
        (some (.named "http://schema.org/position")) none =
        [⟨.named "http://n/1#uuid-2", .named "http://schema.org/position",
          .lit "1"⟩] :=
      List.perm_singleton.mp ((hperm.filter _).trans (by rfl))
    have h3p : getQuads S' (some (.named "http://n/1#uuid-3"))
        (some (.named "http://schema.org/position")) none =
        [⟨.named "http://n/1#uuid-3", .named "http://schema.org/position",
          .lit "2"⟩] :=
      List.perm_singleton.mp ((hperm.filter _).trans (by rfl))
    have h1i : getQuads S' (some (.named "http://n/1#uuid-1"))
        (some (.named "http://schema.org/item")) none =
        [⟨.named "http://n/1#uuid-1", .named "http://schema.org/item",
          .lit a⟩] :=
      List.perm_singleton.mp ((hperm.filter _).trans (by rfl))
    have h2i : getQuads S' (some (.named "http://n/1#uuid-2"))
        (some (.named "http://schema.org/item")) none =
        [⟨.named "http://n/1#uuid-2", .named "http://schema.org/item",
          .lit b⟩] :=
      List.perm_singleton.mp ((hperm.filter _).trans (by rfl))
    have h3i : getQuads S' (some (.named "http://n/1#uuid-3"))
        (some (.named "http://schema.org/item")) none =
        [⟨.named "http://n/1#uuid-3", .named "http://schema.org/item",
          .lit c⟩] :=
      List.perm_singleton.mp ((hperm.filter _).trans (by rfl))
    have hv : (getQuads S' (some (.named "http://n/1#uuid-0"))
        (some (.named "http://schema.org/itemListElement")) none).Perm
        [⟨.named "http://n/1#uuid-0",
          .named "http://schema.org/itemListElement",
          .named "http://n/1#uuid-1"⟩,
         ⟨.named "http://n/1#uuid-0",
          .named "http://schema.org/itemListElement",
          .named "http://n/1#uuid-2"⟩,
         ⟨.named "http://n/1#uuid-0",
          .named "http://schema.org/itemListElement",
          .named "http://n/1#uuid-3"⟩] :=
      (hperm.filter _).trans (by rfl)
    have hout : ((getQuads S' (some (.named "http://n/1#uuid-0"))
        (some (.named "http://schema.org/itemListElement")) none).filterMap
        (decodeArrayItem S')).Perm
        [((0 : Int), Term.lit a), ((1 : Int), Term.lit b),
         ((2 : Int), Term.lit c)] := by
      refine (hv.filterMap _).trans ?_
      simp only [List.filterMap_cons, List.filterMap_nil, decodeArrayItem,
        h1p, h2p, h3p, h1i, h2i, h3i]
      exact List.Perm.refl _
    have hsorted : List.insertionSort (fun x y => x.1 ≤ y.1)
        ((getQuads S' (some (.named "http://n/1#uuid-0"))
          (some (.named "http://schema.org/itemListElement")) none).filterMap
          (decodeArrayItem S')) =
        [((0 : Int), Term.lit a), ((1 : Int), Term.lit b),
         ((2 : Int), Term.lit c)] := by
      apply sorted_perm_eq_of_nodup_keys
      · exact (List.perm_insertionSort _ _).trans hout
      · exact List.sorted_insertionSort _ _
      · simp [List.sorted_cons]
      · simp
    show decodeArrayWith (fun t s => decodeResource defsA 10 S' t "" s) S'
        "http://n/1#uuid-0" true "string" "tags" initState = _
    simp only [decodeArrayWith]
    rw [hsorted]
    rfl

/-- Witness for C4: for the concrete elements x, y, z and the reversed
enumeration order of the built store, decodeArray still returns the
elements in original input order. -/
theorem C4_witness :
    List.Perm ((storeC4 "x" "y" "z").reverse) (storeC4 "x" "y" "z") ∧
    decodeArray defsA 10 ((storeC4 "x" "y" "z").reverse)
      "http://n/1#uuid-0" true "string" "tags" initState =
      some ([.vStr "x", .vStr "y", .vStr "z"], initState) :=
  ⟨List.reverse_perm _,
   (C4_list_ordering "x" "y" "z").2.2.2.2 ((storeC4 "x" "y" "z").reverse)
     (List.reverse_perm _)⟩

/-- C9: whenever the node type resolves, either from the first rdf:type
quad registered in the reverse type map or from a non-empty supplied
expected type, the object decodeResource returns always carries an id key
equal to the node identifier (blank nodes prefixed with the anonymous
marker) and a type key equal to the resolved type key, provided no schema
property URI maps a predicate to the reserved keys id or type. -/
theorem C9_id_type_invariant (defs : AbstractDefinitionMap) (fuel : Nat)
    (store : Store) (node : Term) (specifyType : String) (st0 : OpState)
    (item : List (String × JValue)) (stf : OpState) (tk : String)
    (hdefs : defsOkForDecode defs) (hst : urisOk st0)
    (hty : (getQuads store (some node)
        (some (.named rdfTypeUri)) none).findSome?
        (fun q => jsGet (typeDefs defs) q.obj.value) = some tk ∨
      ((getQuads store (some node)
        (some (.named rdfTypeUri)) none).findSome?
        (fun q => jsGet (typeDefs defs) q.obj.value) = none ∧
        specifyType = tk ∧ tk ≠ ""))
    (h : decodeResource defs fuel store node specifyType st0 =
      some (item, stf)) :
    jsGet item "id" = some (.vStr (nodeIdOf node)) ∧
    jsGet item "type" = some (.vStr tk) := by
  cases fuel with
  | zero => simp [decodeResource] at h
  | succ fuel =>
    simp only [decodeResource] at h
    have hmain : ∀ (ty0 : String) (item1 : List (String × JValue)),
        item1 = [("id", .vStr (nodeIdOf node)), ("type", .vStr tk)] →
        ∀ (pr ur : Nat) (st1 : OpState), urisOk st1 →
        (getQuads store (some node) none none).foldlM (m := Option)
          (decodeResourceStep
            (fun t sp s => decodeResource defs fuel store t sp s)
            store pr ur) (item1, st1) = some (item, stf) →
        jsGet item "id" = some (.vStr (nodeIdOf node)) ∧
        jsGet item "type" = some (.vStr tk) := by
      intro ty0 item1 hitem1 pr ur st1 hst1 hfold
      have hres := foldlM_preserves
        (fun acc : List (String × JValue) × OpState =>
          (jsGet acc.1 "id" = some (.vStr (nodeIdOf node)) ∧
           jsGet acc.1 "type" = some (.vStr tk)) ∧ urisOk acc.2) _
        (fun b a b2 hb hbstep => by
          have hinv := decodeResourceStep_invariant _
            (fun t sp2 s r hs hr =>
              decodeResource_urisOk defs hdefs fuel store t sp2 s r hs hr)
            store pr ur b a b2 hb.2 hbstep
          exact ⟨⟨by rw [hinv.2.1]; exact hb.1.1,
            by rw [hinv.2.2]; exact hb.1.2⟩, hinv.1⟩)
        _ _ _ ⟨⟨by rw [hitem1]; simp [jsGet],
          by rw [hitem1]; simp [jsGet]⟩, hst1⟩ hfold
      exact hres.1
    rcases hty with hfind | ⟨hfind, hsp, hne⟩
    · split at h
      · rename_i heq0
        rw [hfind] at heq0
        simp at heq0
      · rename_i ty0 item1 heq0
        rw [hfind] at heq0
        simp only [Option.getD_some, Option.some.injEq,
          Prod.mk.injEq] at heq0
        split at h
        · cases h
        · rename_i pr ur st1 hcache
          have hst1 : urisOk st1 := by
            split at hcache
            · cases hcache; exact hst
            · split at hcache
              · cases hcache
              · rename_i pr0 stA hga
                split at hcache
                · cases hcache
                · rename_i ur0 stB hgu
                  cases hcache
                  have hA : urisOk stA := by
                    intro cell hcell
                    rw [getAllProperties_heapU defs _ _ _ _ _ hga] at hcell
                    exact hst cell hcell
                  have hB := getAllPropertyUris_urisOk defs hdefs _ _ _ _ _
                    hA hgu
                  intro cell hcell
                  exact hB cell hcell
          exact hmain ty0 item1 heq0.2.symm pr ur st1 hst1 h
    · subst hsp
      split at h
      · rename_i heq0
        rw [hfind] at heq0
        simp [hne] at heq0
      · rename_i ty0 item1 heq0
        rw [hfind] at heq0
        simp [hne, jsSet] at heq0
        split at h
        · cases h
        · rename_i pr ur st1 hcache
          have hst1 : urisOk st1 := by
            split at hcache
            · cases hcache; exact hst
            · split at hcache
              · cases hcache
              · rename_i pr0 stA hga
                split at hcache
                · cases hcache
                · rename_i ur0 stB hgu
                  cases hcache
                  have hA : urisOk stA := by
                    intro cell hcell
                    rw [getAllProperties_heapU defs _ _ _ _ _ hga] at hcell
                    exact hst cell hcell
                  have hB := getAllPropertyUris_urisOk defs hdefs _ _ _ _ _
                    hA hgu
                  intro cell hcell
                  exact hB cell hcell
          exact hmain ty0 item1 heq0.2.symm pr ur st1 hst1 h

/-- Witness for C9: decoding a node whose store carries no id or type
property still yields both keys, with id the node URI and type the
resolved type key. -/
theorem C9_witness_concrete :
    defsOkForDecode defsS ∧ urisOk initState ∧
    (jsGet [("id", JValue.vStr "http://n/9"),
        ("type", JValue.vStr "Thing"), ("name", JValue.vStr "hi")] "id" =
      some (.vStr (nodeIdOf (.named "http://n/9"))) ∧
     jsGet [("id", JValue.vStr "http://n/9"),
        ("type", JValue.vStr "Thing"), ("name", JValue.vStr "hi")] "type" =
      some (.vStr "Thing")) :=
  ⟨by unfold defsOkForDecode; decide,
   by intro cell hcell; exact absurd hcell (List.not_mem_nil _),
   C9_id_type_invariant defsS 5 storeC9 (.named "http://n/9") "" initState
     [("id", .vStr "http://n/9"), ("type", .vStr "Thing"),
      ("name", .vStr "hi")]
     ⟨[[("name", ⟨"http://x/name", "string", false, false, false⟩)]],
      [[("http://x/name", "name")]], [("Thing", (0, 0))], 0, []⟩
     "Thing" (by unfold defsOkForDecode; decide)
     (by intro cell hcell; exact absurd hcell (List.not_mem_nil _))
     (Or.inl rfl) rfl⟩

end CommerceEngine
